import Mathlib

/-!
Verification of the Tic-Tac-Toe game logic in `src/App.js`.

The JavaScript source is shallowly embedded:
- a cell holds `"X"`, `"O"` or `null`: modelled as `Option Mark`;
- a board is the 9-element squares array: modelled as `List (Option Mark)`;
- `calculateWinner` scans the fixed table of 8 winning lines;
- `handleClick` in the `Board` component either rejects a move (occupied
  cell or existing winner) or produces the updated copy of the squares;
- the `Game` component holds `history` (a list of boards) and
  `currentMove` (the cursor); `handlePlay` truncates the history after
  the cursor and appends the new board; `jumpTo` only moves the cursor.

JavaScript array indexing `squares[i]` is modelled by `cell`
(`List.getD` with default `none`; an out-of-range read yields
`undefined` in the source, which every use site treats like an empty
cell).  The `history[currentMove]` lookup, which can in principle miss,
is modelled by the `Option`-returning `List.get?`.
-/

namespace TicTacToe

/-- The two marks, `"X"` and `"O"` in the source. -/
inductive Mark where
  | X : Mark
  | O : Mark
deriving DecidableEq, Repr

/-- A cell of the squares array: `"X"`, `"O"` or `null`. -/
abbrev Cell := Option Mark

/-- The squares array of the source: a list of cells (of length 9 in
every board the game constructs). -/
abbrev Board := List Cell

/-- Reading `squares[i]`. -/
def cell (squares : Board) (i : Nat) : Cell :=
  squares.getD i none

/-- The constant `lines` table of `calculateWinner`: 3 rows, 3 columns,
2 diagonals, in the order given by the source. -/
def lines : List (Nat × Nat × Nat) :=
  [(0, 1, 2), (3, 4, 5), (6, 7, 8),
   (0, 3, 6), (1, 4, 7), (2, 5, 8),
   (0, 4, 8), (2, 4, 6)]

/-- The loop-body test of `calculateWinner`:
`squares[a] && squares[a] === squares[b] && squares[a] === squares[c]`. -/
def tripleDone (squares : Board) (t : Nat × Nat × Nat) : Bool :=
  (cell squares t.1).isSome
    && decide (cell squares t.1 = cell squares t.2.1)
    && decide (cell squares t.1 = cell squares t.2.2)

/-- The scanning loop of `calculateWinner`: return `squares[a]` at the
first line whose test succeeds, else fall through. -/
def checkLines (squares : Board) : List (Nat × Nat × Nat) → Option Mark
  | [] => none
  | t :: rest =>
    if tripleDone squares t then cell squares t.1 else checkLines squares rest

/-- `calculateWinner(squares)`: the mark of the first completed line in
the fixed table, or `null` (modelled as `none`). -/
def calculateWinner (squares : Board) : Option Mark :=
  checkLines squares lines

/-- Rendering of a mark as the string stored in the squares array. -/
def markStr : Mark → String
  | .X => "X"
  | .O => "O"

/-- `handleClick(i)` of the `Board` component, as the board-to-board
step it performs: `none` when the early return fires (cell occupied or
a winner exists), otherwise the copied squares with cell `i` set to the
mark of the player to move. -/
def handleClick (xn : Bool) (squares : Board) (i : Nat) : Option Board :=
  if (cell squares i).isSome || (calculateWinner squares).isSome then
    none
  else
    some (squares.set i (some (if xn then Mark.X else Mark.O)))

/-- The status string computed by the `Board` component. -/
def statusOf (xn : Bool) (squares : Board) : String :=
  match calculateWinner squares with
  | some w => "Winner: " ++ markStr w
  | none => "Next player: " ++ (if xn then "X" else "O")

/-- The state of the `Game` component: `history` and `currentMove`. -/
structure GameState where
  history : List Board
  currentMove : Nat
deriving DecidableEq, Repr

/-- The initial state: `useState([Array(9).fill(null)])` and
`useState(0)`. -/
def initialState : GameState :=
  ⟨[List.replicate 9 (none : Cell)], 0⟩

/-- `xIsNext = currentMove % 2 === 0`. -/
def xIsNext (s : GameState) : Bool :=
  s.currentMove % 2 == 0

/-- `currentSquares = history[currentMove]`, as the `Option`-returning
lookup (the source yields `undefined` when the index misses). -/
def currentBoard (s : GameState) : Option Board :=
  s.history.get? s.currentMove

/-- `handlePlay(nextSquares)`: truncate the history after the cursor,
append the new board, and move the cursor to the new last index. -/
def handlePlay (s : GameState) (nextSquares : Board) : GameState :=
  let nextHistory := s.history.take (s.currentMove + 1) ++ [nextSquares]
  ⟨nextHistory, nextHistory.length - 1⟩

/-- A full click on square `i`: read the current board, run
`handleClick` of the `Board` component, and on success feed the
produced board to `handlePlay`.  A rejected click leaves the state
unchanged. -/
def playMove (s : GameState) (i : Nat) : GameState :=
  match currentBoard s with
  | none => s
  | some squares =>
    match handleClick (xIsNext s) squares i with
    | none => s
    | some nextSquares => handlePlay s nextSquares

/-- `jumpTo(nextMove)`: set the cursor, touch nothing else. -/
def jumpTo (s : GameState) (k : Nat) : GameState :=
  { s with currentMove := k }

/-- Number of non-empty cells of a board. -/
def countMarks (b : Board) : Nat :=
  b.countP (fun c => c.isSome)

/-- States reachable through the user interface: clicks land on one of
the 9 rendered squares (`i < 9`), and the move list only ever offers
existing history indices (`k < length`). -/
inductive Reachable : GameState → Prop where
  | init : Reachable initialState
  | play (s : GameState) (i : Nat) (hi : i < 9) (hs : Reachable s) :
      Reachable (playMove s i)
  | jump (s : GameState) (k : Nat) (hk : k < s.history.length) (hs : Reachable s) :
      Reachable (jumpTo s k)

/-- The state invariant: the cursor is in range, and the snapshot at
index `i` is a 9-cell board carrying exactly `i` marks. -/
def Inv (s : GameState) : Prop :=
  s.currentMove < s.history.length ∧
  ∀ i b, s.history.get? i = some b → b.length = 9 ∧ countMarks b = i

/-- A board used in concrete checks: X about to be declared winner on
the left column, with no earlier line of the table completed. -/
def demoColBoard : Board :=
  [some Mark.X, none, none,
   some Mark.X, some Mark.O, some Mark.O,
   some Mark.X, none, none]

/-- A full board with no completed line (a drawn game). -/
def demoDrawBoard : Board :=
  [some Mark.X, some Mark.O, some Mark.X,
   some Mark.X, some Mark.O, some Mark.O,
   some Mark.O, some Mark.X, some Mark.X]

/-- The board after one X was placed on square 0. -/
def demoBoard1 : Board :=
  [some Mark.X, none, none, none, none, none, none, none, none]

/-- The state after one accepted click on square 0. -/
def demoS1 : GameState :=
  playMove initialState 0

/-- The state after accepted clicks on squares 0 and 4. -/
def demoS2 : GameState :=
  playMove demoS1 4

end TicTacToe
namespace TicTacToe

theorem cell_eq_getElem (b : Board) (i : Nat) (hi : i < b.length) :
    cell b i = b[i] := by
  simp [cell, List.getD_eq_getElem?_getD, List.getElem?_eq_getElem hi]

theorem cell_set_self (b : Board) (i : Nat) (v : Cell) (hi : i < b.length) :
    cell (b.set i v) i = v := by
  simp [cell, List.getD_eq_getElem?_getD, List.getElem?_set, hi]

theorem cell_set_ne (b : Board) (i j : Nat) (v : Cell) (h : j ≠ i) :
    cell (b.set i v) j = cell b j := by
  simp [cell, List.getD_eq_getElem?_getD, List.getElem?_set, Ne.symm h]

theorem checkLines_first (squares : Board) (L : List (Nat × Nat × Nat))
    (j : Nat) (t : Nat × Nat × Nat)
    (ht : L.get? j = some t)
    (hdone : tripleDone squares t = true)
    (hmin : ∀ k, k < j → ∀ u, L.get? k = some u → tripleDone squares u = false) :
    checkLines squares L = cell squares t.1 := by
  induction L generalizing j with
  | nil => simp at ht
  | cons a rest ih =>
    cases j with
    | zero =>
      rw [List.get?_cons_zero, Option.some.injEq] at ht
      subst ht
      simp only [checkLines, hdone, if_true]
    | succ j =>
      rw [List.get?_cons_succ] at ht
      have ha : tripleDone squares a = false :=
        hmin 0 (Nat.succ_pos j) a List.get?_cons_zero
      simp only [checkLines, ha, Bool.false_eq_true, if_false]
      exact ih j ht fun k hk u hu =>
        hmin (k + 1) (Nat.succ_lt_succ hk) u (by rwa [List.get?_cons_succ])

theorem checkLines_eq_none (squares : Board) (L : List (Nat × Nat × Nat))
    (h : ∀ t ∈ L, tripleDone squares t = false) :
    checkLines squares L = none := by
  induction L with
  | nil => rfl
  | cons t rest ih =>
    have ht := h t (by simp)
    simp only [checkLines, ht, Bool.false_eq_true, if_false]
    exact ih (fun u hu => h u (by simp [hu]))

end TicTacToe
namespace TicTacToe

theorem handleClick_accepted (xn : Bool) (squares : Board) (i : Nat)
    (hemp : cell squares i = none) (hwin : calculateWinner squares = none) :
    handleClick xn squares i
      = some (squares.set i (some (if xn then Mark.X else Mark.O))) := by
  simp [handleClick, hemp, hwin]

theorem handleClick_rejected (xn : Bool) (squares : Board) (i : Nat)
    (hrej : cell squares i ≠ none ∨ calculateWinner squares ≠ none) :
    handleClick xn squares i = none := by
  have hcond : ((cell squares i).isSome || (calculateWinner squares).isSome) = true := by
    rcases hrej with h | h <;> simp [Option.isSome_iff_ne_none, h]
  simp [handleClick, hcond]

theorem playMove_eq_handlePlay (s : GameState) (i : Nat) (squares : Board)
    (hsq : currentBoard s = some squares)
    (hemp : cell squares i = none) (hwin : calculateWinner squares = none) :
    playMove s i
      = handlePlay s (squares.set i (some (if xIsNext s then Mark.X else Mark.O))) := by
  simp only [playMove, hsq, handleClick_accepted _ _ _ hemp hwin]

theorem playMove_eq_self (s : GameState) (i : Nat) (squares : Board)
    (hsq : currentBoard s = some squares)
    (hrej : cell squares i ≠ none ∨ calculateWinner squares ≠ none) :
    playMove s i = s := by
  simp only [playMove, hsq, handleClick_rejected _ _ _ hrej]

theorem handlePlay_history (s : GameState) (ns : Board)
    (hc : s.currentMove < s.history.length) :
    (handlePlay s ns).history.length = s.currentMove + 2 ∧
    (handlePlay s ns).currentMove = s.currentMove + 1 ∧
    (∀ j, j ≤ s.currentMove → (handlePlay s ns).history.get? j = s.history.get? j) ∧
    (handlePlay s ns).history.get? (s.currentMove + 1) = some ns := by
  have htake : (s.history.take (s.currentMove + 1)).length = s.currentMove + 1 := by
    rw [List.length_take]
    exact Nat.min_eq_left (Nat.succ_le_of_lt hc)
  have hlen : (handlePlay s ns).history.length = s.currentMove + 2 := by
    simp [handlePlay, htake]
  refine ⟨hlen, by simp [handlePlay, htake], ?_, ?_⟩
  · intro j hj
    have hj1 : j < (s.history.take (s.currentMove + 1)).length := by omega
    rw [handlePlay, List.get?_append hj1, List.get?_take (by omega)]
  · have := List.get?_concat_length (s.history.take (s.currentMove + 1)) ns
    rw [htake] at this
    simpa [handlePlay] using this

end TicTacToe
namespace TicTacToe

theorem countMarks_set (b : Board) (i : Nat) (m : Mark) (hi : i < b.length)
    (h : cell b i = none) : countMarks (b.set i (some m)) = countMarks b + 1 := by
  have hb : b[i] = (none : Cell) := by rw [← cell_eq_getElem b i hi, h]
  rw [countMarks, countMarks, List.countP_set _ _ _ _ hi, hb]
  simp

theorem inv_initial : Inv initialState := by
  constructor
  · simp [initialState]
  · intro i b hb
    cases i with
    | zero =>
      rw [show initialState.history.get? 0 = some (List.replicate 9 (none : Cell)) from rfl,
        Option.some.injEq] at hb
      subst hb
      exact ⟨by simp, by decide⟩
    | succ n =>
      simp [initialState] at hb

theorem inv_play (s : GameState) (i : Nat) (hi : i < 9) (h : Inv s) :
    Inv (playMove s i) := by
  obtain ⟨hc, hsnap⟩ := h
  have hsq : currentBoard s = some (s.history.get ⟨s.currentMove, hc⟩) :=
    List.get?_eq_get hc
  set squares := s.history.get ⟨s.currentMove, hc⟩ with hsqdef
  obtain ⟨hlen9, hcount⟩ := hsnap s.currentMove squares (List.get?_eq_get hc)
  by_cases hacc : cell squares i = none ∧ calculateWinner squares = none
  · obtain ⟨hemp, hwin⟩ := hacc
    rw [playMove_eq_handlePlay s i squares hsq hemp hwin]
    set ns := squares.set i (some (if xIsNext s then Mark.X else Mark.O)) with hns
    obtain ⟨hL, hM, hpre, hlast⟩ := handlePlay_history s ns hc
    constructor
    · omega
    · intro j b hb
      rcases Nat.lt_trichotomy j (s.currentMove + 1) with hj | hj | hj
      · rw [hpre j (by omega)] at hb
        exact hsnap j b hb
      · subst hj
        rw [hlast, Option.some.injEq] at hb
        subst hb
        refine ⟨by simp [hns, hlen9], ?_⟩
        rw [hns, countMarks_set squares i _ (by omega) hemp, hcount]
      · rw [List.get?_eq_none.2 (by omega)] at hb
        exact Option.noConfusion hb
  · rw [playMove_eq_self s i squares hsq (by tauto)]
    exact ⟨hc, hsnap⟩

theorem inv_jump (s : GameState) (k : Nat) (hk : k < s.history.length)
    (h : Inv s) : Inv (jumpTo s k) :=
  ⟨hk, h.2⟩

theorem reachable_inv (s : GameState) (hs : Reachable s) : Inv s := by
  induction hs with
  | init => exact inv_initial
  | play s i hi _ ih => exact inv_play s i hi ih
  | jump s k hk _ ih => exact inv_jump s k hk ih

end TicTacToe
namespace TicTacToe

/-- C1: for every board containing at least one completed triple, the
function `calculateWinner` returns the mark occupying the triple that
appears earliest in the fixed enumeration order row0, row1, row2, col0,
col1, col2, diag0, diag1 (the order of the `lines` table).  Here `t` is
the line at position `j` of the table, `t` is completed, and no line
before position `j` is completed. -/
theorem calculateWinner_first_triple (squares : Board) (j : Nat) (t : Nat × Nat × Nat)
    (ht : lines.get? j = some t)
    (hdone : tripleDone squares t = true)
    (hmin : ∀ k, k < j → ∀ u, lines.get? k = some u → tripleDone squares u = false) :
    calculateWinner squares = cell squares t.1 :=
  checkLines_first squares lines j t ht hdone hmin

theorem calculateWinner_first_triple_witness :
    calculateWinner demoColBoard = cell demoColBoard 0 :=
  calculateWinner_first_triple demoColBoard 3 (0, 3, 6) (by decide) (by decide)
    (by
      intro k hk u hu
      interval_cases k <;>
        simp only [lines, List.get?_cons_zero, List.get?_cons_succ,
          Option.some.injEq] at hu <;>
        subst hu <;> decide)

/-- C2: for every board in which none of the 8 fixed lines has three
equal non-empty cells (including the empty board and a fully filled
drawn board), `calculateWinner` returns `none`. -/
theorem calculateWinner_no_triple (squares : Board)
    (h : ∀ t ∈ lines, tripleDone squares t = false) :
    calculateWinner squares = none :=
  checkLines_eq_none squares lines h

theorem calculateWinner_no_triple_witness :
    calculateWinner demoDrawBoard = none :=
  calculateWinner_no_triple demoDrawBoard (by decide)

/-- C3: whenever the cursor is a valid history index and the move on
cell `i` is accepted (the current board has cell `i` empty and no
winner), `playMove` makes the history length `currentMove + 2`, makes
the cursor `currentMove + 1`, preserves the history entries up to the
old cursor, and leaves nothing at index `currentMove + 2` or beyond
(any previously existing future entries are discarded). -/
theorem playMove_success (s : GameState) (i : Nat)
    (hc : s.currentMove < s.history.length)
    (squares : Board) (hsq : currentBoard s = some squares)
    (hemp : cell squares i = none) (hwin : calculateWinner squares = none) :
    (playMove s i).history.length = s.currentMove + 2 ∧
    (playMove s i).currentMove = s.currentMove + 1 ∧
    (∀ j, j ≤ s.currentMove → (playMove s i).history.get? j = s.history.get? j) ∧
    (∀ j, s.currentMove + 2 ≤ j → (playMove s i).history.get? j = none) := by
  rw [playMove_eq_handlePlay s i squares hsq hemp hwin]
  obtain ⟨hL, hM, hpre, _⟩ := handlePlay_history s _ hc
  exact ⟨hL, hM, hpre, fun j hj => List.get?_eq_none.2 (by omega)⟩

theorem playMove_success_witness :
    (playMove (jumpTo demoS2 0) 7).history.length = 2 ∧
    (playMove (jumpTo demoS2 0) 7).currentMove = 1 ∧
    (∀ j, j ≤ 0 → (playMove (jumpTo demoS2 0) 7).history.get? j
      = (jumpTo demoS2 0).history.get? j) ∧
    (∀ j, 2 ≤ j → (playMove (jumpTo demoS2 0) 7).history.get? j = none) :=
  playMove_success (jumpTo demoS2 0) 7 (by decide)
    (List.replicate 9 (none : Cell)) (by decide) (by decide) (by decide)

/-- C4: in every reachable state, a click on an occupied cell or on any
cell after the current board already has a winner leaves the whole
state (history and cursor) exactly unchanged: the rejected move is a
silent no-op. -/
theorem playMove_rejected_noop (s : GameState) (hs : Reachable s) (i : Nat)
    (squares : Board) (hsq : currentBoard s = some squares)
    (hrej : cell squares i ≠ none ∨ calculateWinner squares ≠ none) :
    playMove s i = s :=
  playMove_eq_self s i squares hsq hrej

theorem playMove_rejected_noop_witness : playMove demoS1 0 = demoS1 :=
  playMove_rejected_noop demoS1
    (Reachable.play initialState 0 (by omega) Reachable.init) 0
    demoBoard1 (by decide) (Or.inl (by decide))

/-- C5: for every valid index `k`, `jumpTo k` leaves the history
contents unchanged and sets the cursor to `k`, so that reading the
current board immediately afterwards yields exactly history entry `k`. -/
theorem jumpTo_round_trip (s : GameState) (k : Nat) (hk : k < s.history.length) :
    (jumpTo s k).history = s.history ∧ (jumpTo s k).currentMove = k ∧
    currentBoard (jumpTo s k) = some (s.history.get ⟨k, hk⟩) :=
  ⟨rfl, rfl, List.get?_eq_get hk⟩

theorem jumpTo_round_trip_witness :
    (jumpTo demoS2 0).history = demoS2.history ∧
    (jumpTo demoS2 0).currentMove = 0 ∧
    currentBoard (jumpTo demoS2 0) = some (List.replicate 9 (none : Cell)) := by
  have h := jumpTo_round_trip demoS2 0 (by decide)
  refine ⟨h.1, h.2.1, ?_⟩
  rw [h.2.2]
  decide

/-- C6: in every state reachable through the interface from the initial
state, the snapshot stored at index `i` of the history contains exactly
`i` non-empty cells. -/
theorem history_snapshot_marks (s : GameState) (hs : Reachable s) (i : Nat) (b : Board)
    (hb : s.history.get? i = some b) : countMarks b = i :=
  ((reachable_inv s hs).2 i b hb).2

theorem history_snapshot_marks_witness : countMarks demoBoard1 = 1 :=
  history_snapshot_marks demoS2
    (Reachable.play demoS1 4 (by omega)
      (Reachable.play initialState 0 (by omega) Reachable.init))
    1 demoBoard1 (by decide)

/-- C7: in every reachable state, the mark placed by an accepted
`playMove` equals the mark implied by cursor parity: X when the cursor
is even and O when the cursor is odd.  The turn to move is derived from
the cursor; the state carries no separate turn field. -/
theorem playMove_mark_parity (s : GameState) (hs : Reachable s) (i : Nat) (hi : i < 9)
    (squares : Board) (hsq : currentBoard s = some squares)
    (hemp : cell squares i = none) (hwin : calculateWinner squares = none) :
    ∃ b, currentBoard (playMove s i) = some b ∧
      cell b i = some (if s.currentMove % 2 = 0 then Mark.X else Mark.O) := by
  obtain ⟨hc, hsnap⟩ := reachable_inv s hs
  have hq : s.history.get? s.currentMove = some squares := hsq
  have hlen9 : squares.length = 9 := (hsnap s.currentMove squares hq).1
  rw [playMove_eq_handlePlay s i squares hsq hemp hwin]
  obtain ⟨hL, hM, hpre, hlast⟩ :=
    handlePlay_history s (squares.set i (some (if xIsNext s then Mark.X else Mark.O))) hc
  refine ⟨squares.set i (some (if xIsNext s then Mark.X else Mark.O)), ?_, ?_⟩
  · rw [currentBoard, hM, hlast]
  · rw [cell_set_self squares i _ (by omega)]
    by_cases hp : s.currentMove % 2 = 0 <;> simp [xIsNext, hp]

theorem playMove_mark_parity_witness :
    ∃ b, currentBoard (playMove demoS1 4) = some b ∧
      cell b 4 = some (if demoS1.currentMove % 2 = 0 then Mark.X else Mark.O) :=
  playMove_mark_parity demoS1
    (Reachable.play initialState 0 (by omega) Reachable.init)
    4 (by omega) demoBoard1 (by decide) (by decide) (by decide)

/-- C8: whenever a click is accepted, the board handed to `handlePlay`
is a fresh copy: it has the same length as the input board, holds the
placed mark at the clicked index, and agrees with the input board at
every other index (the input board itself, being a value here, is
untouched). -/
theorem handleClick_frame (xn : Bool) (squares : Board) (i : Nat)
    (hi : i < squares.length)
    (b : Board) (h : handleClick xn squares i = some b) :
    b.length = squares.length ∧
    cell b i = some (if xn then Mark.X else Mark.O) ∧
    ∀ j, j ≠ i → cell b j = cell squares j := by
  rw [handleClick] at h
  by_cases hcond : ((cell squares i).isSome || (calculateWinner squares).isSome) = true
  · rw [if_pos hcond] at h
    exact Option.noConfusion h
  · rw [if_neg hcond, Option.some.injEq] at h
    subst h
    exact ⟨List.length_set squares i _, cell_set_self squares i _ hi,
      fun j hj => cell_set_ne squares i j _ hj⟩

theorem handleClick_frame_witness :
    demoBoard1.length = (List.replicate 9 (none : Cell)).length ∧
    cell demoBoard1 0 = some (if true then Mark.X else Mark.O) ∧
    ∀ j, j ≠ 0 → cell demoBoard1 j = cell (List.replicate 9 (none : Cell)) j :=
  handleClick_frame true (List.replicate 9 (none : Cell)) 0 (by decide)
    demoBoard1 (by decide)

/-- C9: the derived status string is `"Winner: "` followed by the
winning mark when `calculateWinner` finds one, and otherwise
`"Next player: "` followed by the mark derived from cursor parity
(X when the cursor is even, O when odd). -/
theorem statusOf_parity (s : GameState) (squares : Board) :
    statusOf (xIsNext s) squares =
      match calculateWinner squares with
      | some w => "Winner: " ++ markStr w
      | none => "Next player: " ++ markStr (if s.currentMove % 2 = 0 then Mark.X else Mark.O) := by
  cases hw : calculateWinner squares with
  | some w => simp [statusOf, hw]
  | none =>
    by_cases hp : s.currentMove % 2 = 0 <;> simp [statusOf, hw, xIsNext, hp, markStr]

/-- C10: `jumpTo` performs no range check: the cursor is set to the
target unconditionally and the history is untouched.  The subsequent
current-board lookup is the `Option`-returning history lookup at the
new cursor, and it succeeds exactly when the target is a valid history
index; outside that range it yields `none`. -/
theorem jumpTo_unchecked (s : GameState) (t : Nat) :
    (jumpTo s t).currentMove = t ∧ (jumpTo s t).history = s.history ∧
    currentBoard (jumpTo s t) = s.history.get? t ∧
    (currentBoard (jumpTo s t)).isSome = decide (t < s.history.length) := by
  refine ⟨rfl, rfl, rfl, ?_⟩
  by_cases h : t < s.history.length
  · rw [show currentBoard (jumpTo s t) = s.history.get? t from rfl, List.get?_eq_get h]
    simp [h]
  · rw [show currentBoard (jumpTo s t) = s.history.get? t from rfl,
      List.get?_eq_none.2 (Nat.le_of_not_lt h)]
    simp [h]

end TicTacToe
